import Mathlib

/-!
Shallow embedding of the Rocky database manager (src/db.rs, src/conversion.rs,
src/errors.rs) in Lean 4, with theorems checking the natural-language
specification against the code.

Modelling conventions:
* Byte sequences (`Vec<u8>`, `&[u8]`) are `List Nat`, each element a byte.
* `u128` and `u64` are `Nat` with explicit bounds (`< 2 ^ 128`, `< 2 ^ 64`)
  where the Rust type guarantees them.
* `current_ms()` returns `Conversion<u128>`; the clock reading is passed in as
  an `Except ClockError Nat` argument so that both the success and the failure
  branch of the code can be examined.
* Engine (RocksDB) calls are modelled by their outcomes, passed as arguments
  (`Bool` for fallible unit operations, `Except Unit (Option (List Nat))` for
  `get`), since the engine itself is an external collaborator.
* The manager's mutable state (the catalogue `dbs` and the meta-database
  `root_db`'s key/value content) is threaded explicitly; jobs sent to the
  background worker channel and engine operations performed synchronously are
  returned as explicit lists.
-/

deriving instance DecidableEq for Except

namespace Rocky

/-! ### Record codec (src/conversion.rs)

`Data { ttl: u128, data: Vec<u8> }` is serialized with bincode v1 default
options: fixed-width little-endian integers, `Vec<u8>` as a `u64` length
prefix followed by the raw bytes. -/

/-- Little-endian encoding of `n` into `k` bytes (bincode fixed-int). -/
def natToLE : Nat → Nat → List Nat
  | 0, _ => []
  | k + 1, n => n % 256 :: natToLE k (n / 256)

/-- Little-endian decoding of a byte list back into a `Nat`. -/
def natFromLE : List Nat → Nat
  | [] => 0
  | b :: bs => b + 256 * natFromLE bs

/-- `Data` from src/db.rs: a stored record, `ttl` an absolute expiry in
milliseconds (`0` = never expires) and `data` the opaque payload bytes. -/
structure Data where
  ttl : Nat
  data : List Nat
  deriving DecidableEq, Repr

/-- `Data::as_bytes` (src/conversion.rs `IntoBytes for Data`):
bincode-serialize the record: 16-byte LE ttl, 8-byte LE payload length,
then the payload bytes. -/
def dataAsBytes (d : Data) : List Nat :=
  natToLE 16 d.ttl ++ natToLE 8 d.data.length ++ d.data

/-- `Vec<u8>::as_struct` (src/conversion.rs `FromBytes for Data`):
bincode-deserialize a `Data`; `none` models a `bincode::Error` on a
truncated input. -/
def bytesAsStruct (bs : List Nat) : Option Data :=
  if bs.length < 16 then none
  else
    let ttl := natFromLE (bs.take 16)
    let bs1 := bs.drop 16
    if bs1.length < 8 then none
    else
      let len := natFromLE (bs1.take 8)
      let bs2 := bs1.drop 8
      if bs2.length < len then none
      else some ⟨ttl, bs2.take len⟩

/-! ### Clock and expiry (src/conversion.rs `current_ms`, src/db.rs `is_expired`) -/

/-- Failure of `current_ms()` (system time before the Unix epoch). -/
inductive ClockError where
  | failed
  deriving DecidableEq, Repr

/-- `is_expired` (src/db.rs): `ttl == 0` is never expired and does not consult
the clock; otherwise the record is expired iff `ttl < current_ms()?`, and a
clock failure propagates. -/
def is_expired (ttl : Nat) (clock : Except ClockError Nat) : Except ClockError Bool :=
  if ttl = 0 then
    .ok false
  else
    match clock with
    | .ok now => .ok (decide (ttl < now))
    | .error e => .error e

/-! ### Compaction filter (src/db.rs `compaction_filter`) -/

/-- `rocksdb::CompactionDecision` (the two values the code produces). -/
inductive CompactionDecision where
  | keep
  | remove
  deriving DecidableEq, Repr

/-- `compaction_filter` (src/db.rs): decode the value; on decode failure
`Remove`; on a clock failure inside `is_expired`, `Remove`; otherwise
`Remove` iff expired. -/
def compaction_filter (_level : Nat) (_key value : List Nat)
    (clock : Except ClockError Nat) : CompactionDecision :=
  match bytesAsStruct value with
  | some d =>
    match is_expired d.ttl clock with
    | .ok true => .remove
    | .ok false => .keep
    | .error _ => .remove
  | none => .remove

/-! ### Errors (src/errors.rs `DbError`) -/

/-- `DbError` (src/errors.rs). `rocks` stands for `Rocks(rocksdb::Error)` (the
engine error is opaque), `validation` carries the formatted message,
`serialization` for `Serialization` (a failed bincode decode), `conversion`
for `Conversion` (e.g. a clock failure converted via
`From<Box<dyn Error>>`). -/
inductive DbError where
  | rocks
  | validation (msg : String)
  | serialization
  | conversion
  deriving DecidableEq, Repr

/-- `not_exists` (src/db.rs): the validation error for an absent database. -/
def not_exists (db_name : String) : DbError :=
  .validation ("Db " ++ db_name ++ " - doesn't exist")

/-! ### Jobs sent to the reclamation worker (src/db.rs `BoxedFnOnce`)

A job is a closure; we model the two closures the code builds by the data
they capture. -/

/-- A deferred unit of work sent on the `tx` channel. `expireKey` is built by
`DbManager::expire` (a clone of the handle, identified by its database name,
plus the key); `destroyDb` is built by `DbManager::try_close_async` (the
evicted handle, the database name and the on-disk path). -/
inductive Job where
  | expireKey (dbName key : String)
  | destroyDb (dbName path : String)
  deriving DecidableEq, Repr

/-- A synchronous operation performed on an engine handle, recorded so that
theorems can state what the request thread itself did to the engine. -/
inductive EngineOp where
  | get (db key : String)
  | put (db key : String)
  | del (db key : String)
  deriving DecidableEq, Repr

/-- A filesystem-level effect of running a Destroy-Database job:
`engineDestroy p` is `DB::destroy(&Options::default(), p)` (from `Db::close`),
`removeDirAll p` is `fs::remove_dir_all(p)` (from `remove_files`). -/
inductive FsOp where
  | engineDestroy (path : String)
  | removeDirAll (path : String)
  deriving DecidableEq, Repr

/-- Running a `destroyDb` job (the closure built in `try_close_async`):
`db.close(&db_name)` — i.e. `DB::destroy` at the path **`db_name`** — and, only
when that succeeded, `remove_files(path)`. `destroyOk` is the outcome of the
`DB::destroy` call. -/
def runDestroyJob (dbName path : String) (destroyOk : Bool) : List FsOp :=
  if destroyOk then
    [.engineDestroy dbName, .removeDirAll path]
  else
    [.engineDestroy dbName]

/-! ### The manager state (src/db.rs `DbManager`)

The catalogue `dbs: HashMap<String, Db>` is modelled by its key set (a
duplicate-free list of names; the `Db` value is a handle whose identity the
claims never inspect beyond the name it was opened under). The meta-database
`root_db` is modelled by its key/value content, an association list from
database name to stored path. -/

/-- Membership in the catalogue map (`HashMap::contains_key`). -/
def catContains (cat : List String) (name : String) : Bool :=
  cat.contains name

/-- `HashMap::insert` on the catalogue key set. -/
def catInsert (cat : List String) (name : String) : List String :=
  name :: cat.filter (fun n => n ≠ name)

/-- `HashMap::remove` on the catalogue key set. -/
def catRemove (cat : List String) (name : String) : List String :=
  cat.filter (fun n => n ≠ name)

/-- Lookup in the meta-database content (`DB::get` on `root_db`). -/
def metaLookup (meta : List (String × String)) (name : String) : Option String :=
  match meta with
  | [] => none
  | (k, v) :: rest => if k = name then some v else metaLookup rest name

/-- `DB::put` on the meta-database content (overwrite semantics). -/
def metaInsert (meta : List (String × String)) (name path : String) :
    List (String × String) :=
  (name, path) :: meta.filter (fun kv => kv.1 ≠ name)

/-- `DB::delete` on the meta-database content. -/
def metaErase (meta : List (String × String)) (name : String) :
    List (String × String) :=
  meta.filter (fun kv => kv.1 ≠ name)

/-- The mutable state of a `DbManager`: the configured root path
(`db_cfg.path()`), the catalogue key set and the meta-database content. -/
structure ManagerState where
  cfgPath : String
  catalogue : List String
  meta : List (String × String)
  deriving DecidableEq, Repr

/-- The state of a freshly constructed manager on an empty root directory:
empty catalogue, empty meta-database. -/
def initState (root : String) : ManagerState :=
  { cfgPath := root, catalogue := [], meta := [] }

/-- `DbConfig::db_path` (src/config.rs): `format!("{}/{}", path, db_name)`. -/
def db_path (root db_name : String) : String :=
  root ++ "/" ++ db_name

/-! ### The manager's public operations (src/db.rs `impl DbManager`)

Engine outcomes are passed in as arguments: `metaPutOk` / `metaDeleteOk` for
the fallible put/delete on `root_db`, `engineOpenOk` for `DB::open`,
`engineGet` for the tenant `DB::get`. Each operation returns its
`DbResult`, the successor state, and (where the code sends on the channel)
the list of jobs enqueued. -/

/-- `DbManager::contains` (src/db.rs): read-locked membership test on `dbs`. -/
def containsDb (s : ManagerState) (db_name : String) : Bool :=
  catContains s.catalogue db_name

/-- `DbManager::open` (src/db.rs): if the catalogue already contains the name,
`Validation`; otherwise put `(name → "<root>/<name>")` into the meta-database
(`root_db.put`, outcome `metaPutOk`), then `open_on_path`: open an engine at
the path (outcome `engineOpenOk`) and insert the handle into the catalogue. -/
def openDb (s : ManagerState) (db_name : String) (metaPutOk engineOpenOk : Bool) :
    Except DbError Unit × ManagerState :=
  if containsDb s db_name then
    (.error (.validation ("Database " ++ db_name ++ " already exists")), s)
  else
    let path := s.cfgPath ++ "/" ++ db_name
    if metaPutOk then
      let s1 := { s with meta := metaInsert s.meta db_name path }
      if engineOpenOk then
        (.ok (), { s1 with catalogue := catInsert s1.catalogue db_name })
      else
        (.error .rocks, s1)
    else
      (.error .rocks, s)

/-- `DbManager::close` (src/db.rs): if the catalogue does not contain the
name, `Validation`; otherwise evict the catalogue entry, delete the name from
the meta-database synchronously (`root_db.w_lock().delete`, outcome
`metaDeleteOk`, propagated by `?`), then `try_close_async`: enqueue a
Destroy-Database job carrying the evicted handle, the name and
`db_cfg.db_path(name)`. -/
def closeDb (s : ManagerState) (db_name : String) (metaDeleteOk : Bool) :
    Except DbError Unit × ManagerState × List Job :=
  if ¬ containsDb s db_name then
    (.error (.validation ("Can't close " ++ db_name ++ " db - doesn't exist")), s, [])
  else
    let s1 := { s with catalogue := catRemove s.catalogue db_name }
    let path := db_path s.cfgPath db_name
    if metaDeleteOk then
      let s2 := { s1 with meta := metaErase s1.meta db_name }
      (.ok (), s2, [.destroyDb db_name path])
    else
      (.error .rocks, s1, [])

/-- `DbManager::read` (src/db.rs): catalogue lookup (absent → `Validation`);
`db.get(key)` (outcome `engineGet`, an engine error propagated by `?`); absent
→ `Ok(None)`; decode (`as_struct`, failure → `Serialization` by `?`);
`is_expired` (clock failure → `Conversion` by `?`); expired → enqueue an
Expire-Key job with a clone of the handle and return `Ok(None)`; otherwise
return the payload. The third component records the synchronous engine
operations the call performs. -/
def readDb (s : ManagerState) (db_name key : String)
    (engineGet : Except Unit (Option (List Nat))) (clock : Except ClockError Nat) :
    Except DbError (Option (List Nat)) × List Job × List EngineOp :=
  if containsDb s db_name then
    match engineGet with
    | .error _ => (.error .rocks, [], [.get db_name key])
    | .ok none => (.ok none, [], [.get db_name key])
    | .ok (some bytes) =>
      match bytesAsStruct bytes with
      | none => (.error .serialization, [], [.get db_name key])
      | some d =>
        match is_expired d.ttl clock with
        | .error _ => (.error .conversion, [], [.get db_name key])
        | .ok true => (.ok none, [.expireKey db_name key], [.get db_name key])
        | .ok false => (.ok (some d.data), [], [.get db_name key])
  else
    (.error (not_exists db_name), [], [])

/-! ### Sequences of lifecycle operations (for the catalogue/meta invariant) -/

/-- A lifecycle operation on the manager: `open` or `close` of a name. -/
inductive LifeOp where
  | openOp (name : String)
  | closeOp (name : String)
  deriving DecidableEq, Repr

/-- Apply one lifecycle operation with all engine calls succeeding, returning
the result and the successor state. -/
def applyOp (s : ManagerState) : LifeOp → Except DbError Unit × ManagerState
  | .openOp n => openDb s n true true
  | .closeOp n =>
    let r := closeDb s n true
    (r.1, r.2.1)

/-- Run a sequence of lifecycle operations (all engine calls succeeding). -/
def runOps (s : ManagerState) : List LifeOp → ManagerState
  | [] => s
  | op :: rest => runOps (applyOp s op).2 rest

/-- Every operation in the sequence succeeds at the state where it runs. -/
def opsSucceed (s : ManagerState) : List LifeOp → Bool
  | [] => true
  | op :: rest =>
    match (applyOp s op).1 with
    | .ok _ => opsSucceed (applyOp s op).2 rest
    | .error _ => false

/-- The catalogue/meta correspondence: a name is in the catalogue iff the
meta-database maps it to `<root>/<name>`. -/
def catMetaInv (s : ManagerState) : Prop :=
  ∀ n, catContains s.catalogue n = true ↔ metaLookup s.meta n = some (db_path s.cfgPath n)

/-! ## Helper lemmas -/

theorem natToLE_length (k n : Nat) : (natToLE k n).length = k := by
  induction k generalizing n with
  | zero => rfl
  | succ k ih => simp [natToLE, ih]

theorem natFromLE_natToLE (k n : Nat) (h : n < 256 ^ k) :
    natFromLE (natToLE k n) = n := by
  induction k generalizing n with
  | zero =>
    simp only [Nat.pow_zero, Nat.lt_one_iff] at h
    simp [natToLE, natFromLE, h]
  | succ k ih =>
    have hdiv : n / 256 < 256 ^ k := by
      rw [Nat.div_lt_iff_lt_mul (by norm_num)]
      calc n < 256 ^ (k + 1) := h
        _ = 256 ^ k * 256 := by rw [Nat.pow_succ]
    simp only [natToLE, natFromLE, ih (n / 256) hdiv]
    omega

theorem bytesAsStruct_dataAsBytes (ttl : Nat) (p : List Nat)
    (h1 : ttl < 2 ^ 128) (h2 : p.length < 2 ^ 64) :
    bytesAsStruct (dataAsBytes ⟨ttl, p⟩) = some ⟨ttl, p⟩ := by
  have h1' : ttl < 256 ^ 16 := by norm_num at h1 ⊢; exact h1
  have h2' : p.length < 256 ^ 8 := by norm_num at h2 ⊢; exact h2
  have lA : (natToLE 16 ttl).length = 16 := natToLE_length 16 ttl
  have lB : (natToLE 8 p.length).length = 8 := natToLE_length 8 p.length
  have htake16 : (dataAsBytes ⟨ttl, p⟩).take 16 = natToLE 16 ttl := by
    simp only [dataAsBytes]
    rw [List.append_assoc]
    exact List.take_left' lA
  have hdrop16 : (dataAsBytes ⟨ttl, p⟩).drop 16 = natToLE 8 p.length ++ p := by
    simp only [dataAsBytes]
    rw [List.append_assoc]
    exact List.drop_left' lA
  have hlen : (dataAsBytes ⟨ttl, p⟩).length = 24 + p.length := by
    simp only [dataAsBytes, List.length_append, lA, lB]
  simp only [bytesAsStruct, hlen, htake16, hdrop16]
  rw [if_neg (by omega)]
  have hlen1 : (natToLE 8 p.length ++ p).length = 8 + p.length := by
    simp [List.length_append, lB]
  rw [if_neg (by omega)]
  rw [List.take_left' lB, List.drop_left' lB]
  rw [natFromLE_natToLE 16 ttl h1', natFromLE_natToLE 8 p.length h2']
  rw [if_neg (by omega), List.take_length]

/-- C5: the record codec round-trips exactly: for every `ttl` that fits in a
`u128` and every payload whose length fits in a `u64` (including the empty
payload and the maximal ttl), decoding the encoding of `(ttl, p)` succeeds
and yields exactly `(ttl, p)`. -/
theorem c5_codec_roundtrip (ttl : Nat) (p : List Nat)
    (h1 : ttl < 2 ^ 128) (h2 : p.length < 2 ^ 64) :
    bytesAsStruct (dataAsBytes ⟨ttl, p⟩) = some ⟨ttl, p⟩ :=
  bytesAsStruct_dataAsBytes ttl p h1 h2

/-- C5 witness: the maximal `u128` ttl together with the empty payload
round-trips. -/
theorem c5_codec_roundtrip_witness :
    (2 ^ 128 - 1 : Nat) < 2 ^ 128 ∧ ([] : List Nat).length < 2 ^ 64 ∧
    bytesAsStruct (dataAsBytes ⟨2 ^ 128 - 1, []⟩) = some ⟨2 ^ 128 - 1, []⟩ :=
  ⟨by norm_num, by decide,
    c5_codec_roundtrip (2 ^ 128 - 1) [] (by norm_num) (by decide)⟩

theorem catContains_iff (cat : List String) (n : String) :
    catContains cat n = true ↔ n ∈ cat := by
  exact List.elem_iff

theorem mem_catInsert (cat : List String) (n m : String) :
    m ∈ catInsert cat n ↔ m = n ∨ m ∈ cat := by
  simp only [catInsert, List.mem_cons, List.mem_filter, decide_eq_true_eq]
  constructor
  · rintro (h | ⟨h, _⟩)
    · exact Or.inl h
    · exact Or.inr h
  · rintro (h | h)
    · exact Or.inl h
    · by_cases he : m = n
      · exact Or.inl he
      · exact Or.inr ⟨h, he⟩

theorem mem_catRemove (cat : List String) (n m : String) :
    m ∈ catRemove cat n ↔ m ∈ cat ∧ m ≠ n := by
  simp [catRemove]

theorem metaLookup_filter_ne (meta : List (String × String)) (n m : String)
    (h : m ≠ n) :
    metaLookup (meta.filter (fun kv => kv.1 ≠ n)) m = metaLookup meta m := by
  induction meta with
  | nil => rfl
  | cons kv rest ih =>
    obtain ⟨k, v⟩ := kv
    by_cases hk : k = n
    · rw [List.filter_cons_of_neg (by simp [hk])]
      rw [ih]
      have hkm : ¬ k = m := fun he => h (by rw [← he, hk])
      simp only [metaLookup, if_neg hkm]
    · rw [List.filter_cons_of_pos (by simp [hk])]
      by_cases hm : k = m
      · simp only [metaLookup, if_pos hm]
      · simp only [metaLookup, if_neg hm]
        exact ih

theorem metaLookup_filter_self (meta : List (String × String)) (n : String) :
    metaLookup (meta.filter (fun kv => kv.1 ≠ n)) n = none := by
  induction meta with
  | nil => rfl
  | cons kv rest ih =>
    obtain ⟨k, v⟩ := kv
    by_cases hk : k = n
    · rw [List.filter_cons_of_neg (by simp [hk])]
      exact ih
    · rw [List.filter_cons_of_pos (by simp [hk])]
      simp only [metaLookup, if_neg hk]
      exact ih

theorem metaLookup_insert_self (meta : List (String × String)) (n p : String) :
    metaLookup (metaInsert meta n p) n = some p := by
  simp [metaInsert, metaLookup]

theorem metaLookup_insert_ne (meta : List (String × String)) (n p m : String)
    (h : m ≠ n) : metaLookup (metaInsert meta n p) m = metaLookup meta m := by
  have hnm : ¬ n = m := fun he => h he.symm
  simp only [metaInsert, metaLookup, if_neg hnm]
  exact metaLookup_filter_ne meta n m h

theorem metaLookup_erase_self (meta : List (String × String)) (n : String) :
    metaLookup (metaErase meta n) n = none :=
  metaLookup_filter_self meta n

theorem metaLookup_erase_ne (meta : List (String × String)) (n m : String)
    (h : m ≠ n) : metaLookup (metaErase meta n) m = metaLookup meta m :=
  metaLookup_filter_ne meta n m h

theorem catContains_insert (cat : List String) (n m : String) :
    catContains (catInsert cat n) m = true ↔ (m = n ∨ catContains cat m = true) := by
  rw [catContains_iff, mem_catInsert, catContains_iff]

theorem catContains_remove (cat : List String) (n m : String) :
    catContains (catRemove cat n) m = true ↔ (catContains cat m = true ∧ m ≠ n) := by
  rw [catContains_iff, mem_catRemove, catContains_iff]

/-! ## Theorems for the claims -/

/-- C4: for every ttl and clock reading `now`, a record is expired iff
`ttl ≠ 0 ∧ ttl < now`; `ttl = 0` is never expired and the clock is not even
consulted (a failing clock still yields "not expired"); `ttl = now` is still
live (strict inequality). -/
theorem c4_expiry_strict_with_zero_sentinel :
    (∀ ttl now : Nat, is_expired ttl (.ok now) = .ok (decide (ttl ≠ 0 ∧ ttl < now)))
    ∧ (∀ clock : Except ClockError Nat, is_expired 0 clock = .ok false)
    ∧ (∀ now : Nat, is_expired now (.ok now) = .ok false) := by
  refine ⟨?_, ?_, ?_⟩
  · intro ttl now
    by_cases h : ttl = 0
    · simp [is_expired, h]
    · simp only [is_expired, if_neg h]
      congr 1
      rw [decide_eq_decide]
      exact ⟨fun hlt => ⟨h, hlt⟩, And.right⟩
  · intro clock
    simp [is_expired]
  · intro now
    by_cases h : now = 0
    · simp [is_expired, h]
    · simp [is_expired, h]

/-- C6: the compaction filter discards values that fail to decode; on a
decodable value with a successful clock reading it discards iff
`ttl ≠ 0 ∧ ttl < now` and keeps otherwise; and it is a total function into
`{keep, remove}` — it never surfaces an error to the engine. -/
theorem c6_compaction_filter_policy :
    (∀ (lvl : Nat) (key value : List Nat) (clock : Except ClockError Nat),
        bytesAsStruct value = none → compaction_filter lvl key value clock = .remove)
    ∧ (∀ (lvl : Nat) (key value : List Nat) (now : Nat) (d : Data),
        bytesAsStruct value = some d →
        compaction_filter lvl key value (.ok now) =
          if d.ttl ≠ 0 ∧ d.ttl < now then .remove else .keep)
    ∧ (∀ (lvl : Nat) (key value : List Nat) (clock : Except ClockError Nat),
        compaction_filter lvl key value clock = .keep ∨
        compaction_filter lvl key value clock = .remove) := by
  refine ⟨?_, ?_, ?_⟩
  · intro lvl key value clock h
    simp [compaction_filter, h]
  · intro lvl key value now d h
    simp only [compaction_filter, h]
    by_cases h0 : d.ttl = 0
    · simp [is_expired, h0]
    · by_cases hlt : d.ttl < now
      · simp [is_expired, h0, hlt]
      · simp [is_expired, h0, hlt]
  · intro lvl key value clock
    rcases hb : bytesAsStruct value with _ | d
    · simp [compaction_filter, hb]
    · rcases he : is_expired d.ttl clock with e | b
      · simp [compaction_filter, hb, he]
      · cases b <;> simp [compaction_filter, hb, he]

/-- C6 witness: a decodable record with `ttl = 1` under clock reading 5 is
discarded, exactly as the if-then-else policy says. -/
theorem c6_compaction_filter_policy_witness :
    bytesAsStruct (dataAsBytes ⟨1, [100]⟩) = some ⟨1, [100]⟩ ∧
    compaction_filter 0 [0] (dataAsBytes ⟨1, [100]⟩) (.ok 5) =
      (if (1 : Nat) ≠ 0 ∧ (1 : Nat) < 5 then CompactionDecision.remove
       else CompactionDecision.keep) :=
  ⟨by decide, c6_compaction_filter_policy.2.1 0 [0] (dataAsBytes ⟨1, [100]⟩) 5
    ⟨1, [100]⟩ (by decide)⟩

/-- C9: on a decodable value with `ttl ≠ 0`, a clock failure inside
`is_expired` makes the compaction filter return Discard — the record is
dropped rather than kept or surfaced as an error. -/
theorem c9_clock_failure_discards :
    ∀ (lvl : Nat) (key value : List Nat) (d : Data),
    bytesAsStruct value = some d → d.ttl ≠ 0 →
    compaction_filter lvl key value (.error .failed) = .remove := by
  intro lvl key value d h h0
  simp [compaction_filter, h, is_expired, h0]

/-- C9 witness: the record `(ttl = 7, payload = [1, 2])` — still live for any
clock reading at most 7 — is discarded when the clock fails. -/
theorem c9_clock_failure_discards_witness :
    bytesAsStruct (dataAsBytes ⟨7, [1, 2]⟩) = some ⟨7, [1, 2]⟩ ∧ (7 : Nat) ≠ 0 ∧
    compaction_filter 1 [3] (dataAsBytes ⟨7, [1, 2]⟩) (.error .failed) =
      CompactionDecision.remove :=
  ⟨by decide, by decide,
    c9_clock_failure_discards 1 [3] (dataAsBytes ⟨7, [1, 2]⟩) ⟨7, [1, 2]⟩
      (by decide) (by decide)⟩

/-- C3: `read(name, key)` returns Validation (not None) when the name is not
in the catalogue; `Ok(None)` when the engine get finds nothing; the codec
error when the stored bytes fail to decode; `Ok(None)` plus an enqueued
Expire-Key job (holding a clone of the handle), with no synchronous engine
delete, when the record is expired; and exactly the stored payload bytes
otherwise. -/
theorem c3_read_case_analysis :
    (∀ (s : ManagerState) (n k : String) g c, containsDb s n = false →
        readDb s n k g c = (.error (not_exists n), [], []))
    ∧ (∀ (s : ManagerState) (n k : String) c, containsDb s n = true →
        readDb s n k (.ok none) c = (.ok none, [], [.get n k]))
    ∧ (∀ (s : ManagerState) (n k : String) c (bytes : List Nat),
        containsDb s n = true → bytesAsStruct bytes = none →
        readDb s n k (.ok (some bytes)) c = (.error .serialization, [], [.get n k]))
    ∧ (∀ (s : ManagerState) (n k : String) c (bytes : List Nat) (d : Data),
        containsDb s n = true → bytesAsStruct bytes = some d →
        is_expired d.ttl c = .ok true →
        readDb s n k (.ok (some bytes)) c =
          (.ok none, [.expireKey n k], [.get n k]))
    ∧ (∀ (s : ManagerState) (n k : String) c (bytes : List Nat) (d : Data),
        containsDb s n = true → bytesAsStruct bytes = some d →
        is_expired d.ttl c = .ok false →
        readDb s n k (.ok (some bytes)) c =
          (.ok (some d.data), [], [.get n k])) := by
  refine ⟨?_, ?_, ?_, ?_, ?_⟩
  · intro s n k g c h
    simp [readDb, h]
  · intro s n k c h
    simp [readDb, h]
  · intro s n k c bytes h hb
    simp [readDb, h, hb]
  · intro s n k c bytes d h hb he
    simp [readDb, h, hb, he]
  · intro s n k c bytes d h hb he
    simp [readDb, h, hb, he]

/-- C3 witness: on a state whose catalogue holds `"a"`, reading a stored
record with `ttl = 3` under clock reading 10 returns None and enqueues the
Expire-Key job, performing only a `get` synchronously. -/
theorem c3_read_case_analysis_witness :
    containsDb ⟨"./db", ["a"], [("a", "./db/a")]⟩ "a" = true ∧
    bytesAsStruct (dataAsBytes ⟨3, [1, 2, 3]⟩) = some ⟨3, [1, 2, 3]⟩ ∧
    is_expired 3 (.ok 10) = .ok true ∧
    readDb ⟨"./db", ["a"], [("a", "./db/a")]⟩ "a" "k"
        (.ok (some (dataAsBytes ⟨3, [1, 2, 3]⟩))) (.ok 10) =
      (.ok none, [.expireKey "a" "k"], [.get "a" "k"]) :=
  ⟨by decide, by decide, by decide,
    c3_read_case_analysis.2.2.2.1 ⟨"./db", ["a"], [("a", "./db/a")]⟩ "a" "k"
      (.ok 10) (dataAsBytes ⟨3, [1, 2, 3]⟩) ⟨3, [1, 2, 3]⟩
      (by decide) (by decide) (by decide)⟩

/-- C8: after a successful `open(n)`, a second `open(n)` with no intervening
close returns the "already exists" Validation error and leaves the state (the
catalogue and the meta-database) unchanged, whatever the engine would have
answered. -/
theorem c8_double_open_validation :
    ∀ (s : ManagerState) (n : String) (metaPutOk engineOpenOk : Bool),
    (openDb s n true true).1 = .ok () →
    openDb (openDb s n true true).2 n metaPutOk engineOpenOk =
      (.error (.validation ("Database " ++ n ++ " already exists")),
       (openDb s n true true).2) := by
  intro s n mp eo h
  by_cases hc : containsDb s n
  · simp [openDb, hc] at h
  · have hstate : (openDb s n true true).2 =
        { s with meta := metaInsert s.meta n (s.cfgPath ++ "/" ++ n),
                 catalogue := catInsert s.catalogue n } := by
      simp [openDb, hc]
    have h2 : containsDb (openDb s n true true).2 n = true := by
      rw [hstate]
      show catContains (catInsert s.catalogue n) n = true
      exact (catContains_insert s.catalogue n n).mpr (Or.inl rfl)
    rw [hstate] at h2 ⊢
    simp [openDb, h2]

/-- C8 witness: opening `"db1"` on a fresh manager succeeds, and the second
open is rejected with the Validation error, state unchanged. -/
theorem c8_double_open_validation_witness :
    (openDb (initState "./db") "db1" true true).1 = .ok () ∧
    openDb (openDb (initState "./db") "db1" true true).2 "db1" true true =
      (.error (.validation ("Database " ++ "db1" ++ " already exists")),
       (openDb (initState "./db") "db1" true true).2) :=
  ⟨by decide, c8_double_open_validation (initState "./db") "db1" true true (by decide)⟩

/-- C10: when `close(name)` is called with `name` present and the synchronous
meta-database delete fails with an engine error, `close` returns that engine
error, the catalogue entry has already been evicted and is not restored, the
meta-database content is untouched, and no Destroy-Database job is
enqueued. -/
theorem c10_close_meta_delete_failure :
    ∀ (s : ManagerState) (n : String), containsDb s n = true →
    closeDb s n false =
      (.error .rocks, { s with catalogue := catRemove s.catalogue n }, []) := by
  intro s n h
  simp [closeDb, h]

/-- C10 witness: closing `"x"` on a state holding it, with the meta delete
failing, returns the engine error, leaves the meta entry in place, evicts the
catalogue entry and enqueues nothing. -/
theorem c10_close_meta_delete_failure_witness :
    containsDb ⟨"./db", ["x"], [("x", "./db/x")]⟩ "x" = true ∧
    closeDb ⟨"./db", ["x"], [("x", "./db/x")]⟩ "x" false =
      (.error .rocks, ⟨"./db", [], [("x", "./db/x")]⟩, []) := by
  refine ⟨by decide, ?_⟩
  have h := c10_close_meta_delete_failure ⟨"./db", ["x"], [("x", "./db/x")]⟩ "x"
    (by decide)
  rw [h]
  rfl

/-- C1: the claim says `open("root")` and `open("")` return Validation and
leave the meta-database and catalogue unchanged. The code has no such check:
on a fresh manager, `open("root")` first writes `("root" → "./db/root")` into
the meta-database and then attempts the engine open (which at runtime fails
with an engine lock error, since the meta-database itself lives at that path
— not a Validation error, and the meta write is not rolled back), and
`open("")` runs through with no Validation either, cataloguing the empty
name. -/
theorem c1_open_root_and_empty_unchecked :
    openDb (initState "./db") "root" true false =
      (.error .rocks,
       { cfgPath := "./db", catalogue := [], meta := [("root", "./db/root")] })
    ∧ openDb (initState "./db") "" true true =
      (.ok (),
       { cfgPath := "./db", catalogue := [""], meta := [("", "./db/")] }) := by
  constructor
  · rfl
  · rfl

/-- C2: the claim says the Destroy-Database job destroys the engine at the
on-disk path `<root>/<name>` and then removes that directory tree. In the
code, `try_close_async`'s closure calls `db.close(&db_name)`, and `Db::close`
passes its argument straight to `DB::destroy` — so the engine destroy runs at
the bare database name (`"test_db"`), not at the on-disk path
(`"./db/test_db"`); only the subsequent `remove_files(path)` uses the real
path. -/
theorem c2_destroy_runs_at_name_not_path :
    (closeDb ⟨"./db", ["test_db"], [("test_db", "./db/test_db")]⟩ "test_db" true).2.2 =
      [Job.destroyDb "test_db" "./db/test_db"]
    ∧ runDestroyJob "test_db" "./db/test_db" true =
        [FsOp.engineDestroy "test_db", FsOp.removeDirAll "./db/test_db"]
    ∧ "test_db" ≠ "./db/test_db" := by
  refine ⟨rfl, rfl, by decide⟩

theorem initState_catMetaInv (root : String) : catMetaInv (initState root) := by
  intro n
  constructor
  · intro h
    cases h
  · intro h
    cases h

theorem openDb_preserves_inv (s : ManagerState) (n : String)
    (hinv : catMetaInv s) (hok : (openDb s n true true).1 = .ok ()) :
    catMetaInv (openDb s n true true).2 := by
  by_cases hc : containsDb s n
  · simp [openDb, hc] at hok
  · have hstate : (openDb s n true true).2 =
        { s with meta := metaInsert s.meta n (s.cfgPath ++ "/" ++ n),
                 catalogue := catInsert s.catalogue n } := by
      simp [openDb, hc]
    rw [hstate]
    intro m
    by_cases hm : m = n
    · subst hm
      constructor
      · intro _
        exact metaLookup_insert_self s.meta m (s.cfgPath ++ "/" ++ m)
      · intro _
        exact (catContains_insert s.catalogue m m).mpr (Or.inl rfl)
    · show catContains (catInsert s.catalogue n) m = true ↔
        metaLookup (metaInsert s.meta n (s.cfgPath ++ "/" ++ n)) m =
          some (db_path s.cfgPath m)
      rw [metaLookup_insert_ne s.meta n (s.cfgPath ++ "/" ++ n) m hm]
      rw [catContains_insert s.catalogue n m]
      constructor
      · rintro (h | h)
        · exact absurd h hm
        · exact (hinv m).mp h
      · intro h
        exact Or.inr ((hinv m).mpr h)

theorem closeDb_preserves_inv (s : ManagerState) (n : String)
    (hinv : catMetaInv s) (hok : (closeDb s n true).1 = .ok ()) :
    catMetaInv (closeDb s n true).2.1 := by
  by_cases hc : containsDb s n
  · have hstate : (closeDb s n true).2.1 =
        { s with catalogue := catRemove s.catalogue n,
                 meta := metaErase s.meta n } := by
      simp [closeDb, hc]
    rw [hstate]
    intro m
    show catContains (catRemove s.catalogue n) m = true ↔
      metaLookup (metaErase s.meta n) m = some (db_path s.cfgPath m)
    by_cases hm : m = n
    · subst hm
      constructor
      · intro h
        exact absurd rfl ((catContains_remove s.catalogue m m).mp h).2
      · intro h
        rw [metaLookup_erase_self s.meta m] at h
        cases h
    · rw [metaLookup_erase_ne s.meta n m hm]
      rw [catContains_remove s.catalogue n m]
      constructor
      · intro h
        exact (hinv m).mp h.1
      · intro h
        exact ⟨(hinv m).mpr h, hm⟩
  · simp [closeDb, hc] at hok

theorem runOps_preserves_inv (ops : List LifeOp) :
    ∀ s : ManagerState, catMetaInv s → opsSucceed s ops = true →
    catMetaInv (runOps s ops) := by
  induction ops with
  | nil =>
    intro s hinv _
    exact hinv
  | cons op rest ih =>
    intro s hinv hsucc
    rcases hr : (applyOp s op).1 with e | u
    · rw [opsSucceed, hr] at hsucc
      cases hsucc
    · rw [opsSucceed, hr] at hsucc
      have hok : (applyOp s op).1 = .ok () := by rw [hr]
      have hinv2 : catMetaInv (applyOp s op).2 := by
        cases op with
        | openOp n => exact openDb_preserves_inv s n hinv hok
        | closeOp n => exact closeDb_preserves_inv s n hinv hok
      exact ih (applyOp s op).2 hinv2 hsucc

/-- C7: at quiescence the catalogue and the meta-database agree: a name is in
the catalogue iff the meta-database maps it to `<root>/<name>`. Every
successful open and every successful close preserves this correspondence, and
it holds after any sequence of successful opens and closes from a fresh
manager. -/
theorem c7_catalogue_meta_correspondence :
    (∀ (s : ManagerState) (n : String), catMetaInv s →
        (openDb s n true true).1 = .ok () → catMetaInv (openDb s n true true).2)
    ∧ (∀ (s : ManagerState) (n : String), catMetaInv s →
        (closeDb s n true).1 = .ok () → catMetaInv (closeDb s n true).2.1)
    ∧ (∀ (root : String) (ops : List LifeOp),
        opsSucceed (initState root) ops = true →
        catMetaInv (runOps (initState root) ops)) :=
  ⟨openDb_preserves_inv, closeDb_preserves_inv,
    fun root ops h => runOps_preserves_inv ops (initState root)
      (initState_catMetaInv root) h⟩

/-- C7 witness: the sequence open "a"; open "b"; close "a" on a fresh manager
succeeds, and the resulting state satisfies the correspondence. -/
theorem c7_catalogue_meta_correspondence_witness :
    opsSucceed (initState "./db") [.openOp "a", .openOp "b", .closeOp "a"] = true ∧
    catMetaInv (runOps (initState "./db") [.openOp "a", .openOp "b", .closeOp "a"]) :=
  ⟨by decide, c7_catalogue_meta_correspondence.2.2 "./db"
    [.openOp "a", .openOp "b", .closeOp "a"] (by decide)⟩

end Rocky
